import Mathlib

/-!
Verification of the sparse-embedding store of dgl-ke
(src/python/dglke/models/pytorch/tensor_models.py).

The development shallowly embeds the class ExternalEmbedding: its row
matrix emb, the per-row Adagrad accumulator state_sum, the step counter
state_step, the gradient trace, read (the method named with two
underscores around call), the synchronous optimizer step (update), the
cross-relation overflow handling (setup_cross_rels and the branches
guarded by has_cross_rel), the asynchronous worker loop (async_update),
the producer side of the asynchronous path, persistence (save and load),
and the exception-forwarding wrapper (thread_wrapped_func).

Scalars are modelled as real numbers; tensor device moves (.to, .cuda)
are identities since they do not change values.
-/

noncomputable section

namespace DglkeTensorModels

/-- The epsilon added to the square root of the accumulator, 1e-10 in
the source (std.sqrt_().add_(1e-10)). -/
def eps : ℝ := 1e-10

/-- Shallow embedding of ExternalEmbedding.  Rows and the accumulator
are total functions from indices to reals; only indices below num
(resp. columns below dim) are meaningful.  The trace stores, per traced
read, the index batch and the detached copy of the gathered rows, as in
self.trace.append((idx, data)).  cpu_bitmap and has_cross_rel model
setup_cross_rels; the authoritative overflow table (self.global_emb) is
passed separately to the operations that use it. -/
structure Emb where
  num : ℕ
  dim : ℕ
  emb : ℕ → ℕ → ℝ
  state_sum : ℕ → ℝ
  state_step : ℕ
  trace : List (List ℕ × List (List ℝ))
  has_cross_rel : Bool
  cpu_bitmap : ℕ → Bool

/-- A freshly constructed table: state_sum is zero-filled
(self.emb.new().resize_(...).zero_()), the step counter is 0, the trace
is empty and cross-relation mode is off.  The row matrix content w is a
parameter because th.empty leaves it unspecified until init. -/
def mkEmb (n d : ℕ) (w : ℕ → ℕ → ℝ) : Emb :=
  { num := n, dim := d, emb := w, state_sum := fun _ => 0,
    state_step := 0, trace := [], has_cross_rel := false,
    cpu_bitmap := fun _ => false }

/-- Mean of the squares of one gradient row:
(grad_values * grad_values).mean(1) for one batch position. -/
def meanSq (g : List ℝ) : ℝ := (g.map fun x => x * x).sum / (g.length : ℝ)

/-- index_add_ on a vector: every pair (i, v) of ps adds v at index i;
duplicate indices accumulate. -/
def indexAdd1 (f : ℕ → ℝ) (ps : List (ℕ × ℝ)) : ℕ → ℝ :=
  fun i => f i + ((ps.filter fun p => p.1 == i).map fun p => p.2).sum

/-- index_add_ on a matrix: every pair (i, row) of ps adds row to matrix
row i; duplicate indices accumulate.  Columns beyond the row length add
zero. -/
def indexAdd2 (f : ℕ → ℕ → ℝ) (ps : List (ℕ × List ℝ)) : ℕ → ℕ → ℝ :=
  fun r c => f r c + ((ps.filter fun p => p.1 == r).map fun p => p.2.getD c 0).sum

/-- Steps 3 to 7 of the optimizer applied to one store, exactly as both
the synchronous branch of update and the worker body of async_update
perform them: grad_sum = (grad*grad).mean(1); state_sum.index_add_;
std = state_sum[idx] read back after the accumulation;
std_values = std.sqrt_().add_(1e-10); tmp = -lr * grad / std_values;
emb.index_add_. -/
def applyStd (lr : ℝ) (e : Emb) (idx : List ℕ) (grad : List (List ℝ)) : Emb :=
  let grad_sum := grad.map meanSq
  let s2 := indexAdd1 e.state_sum (idx.zip grad_sum)
  let stdv := idx.map fun i => Real.sqrt (s2 i) + eps
  let tmp := (grad.zip stdv).map fun p => p.1.map fun x => -lr * x / p.2
  { e with state_sum := s2, emb := indexAdd2 e.emb (idx.zip tmp) }

/-- The cross-relation branch of update: positions whose index is set in
cpu_bitmap are filtered out of the batch and the same optimizer step is
applied to the authoritative overflow table g with them; an empty subset
is a no-op (guarded by cpu_idx.shape[0] > 0 in the source). -/
def applyCross (lr : ℝ) (e g : Emb) (idx : List ℕ) (grad : List (List ℝ)) : Emb :=
  let ps := (idx.zip grad).filter fun p => e.cpu_bitmap p.1
  if ps.isEmpty then g else applyStd lr g (ps.map Prod.fst) (ps.map Prod.snd)

/-- One traced pair inside the synchronous loop of update: when
has_cross_rel is set the overflow subset is first applied to the
authoritative table, then the full batch is applied to the local store
(the source runs the cpu branch and then index_add_ with the complete
grad_indices). -/
def updateEntry (lr : ℝ) (sg : Emb × Emb) (idx : List ℕ) (grad : List (List ℝ)) : Emb × Emb :=
  let g2 := if sg.1.has_cross_rel then applyCross lr sg.1 sg.2 idx grad else sg.2
  (applyStd lr sg.1 idx grad, g2)

/-- The synchronous update: state_step += 1, then every traced
(idx, data) pair is processed in order with the externally supplied
gradient of its copy (data.grad.data, passed here positionally in
grads), and finally self.trace = [].  g is the authoritative overflow
table (self.global_emb), returned updated. -/
def update (lr : ℝ) (e g : Emb) (grads : List (List (List ℝ))) : Emb × Emb :=
  let stepped := { e with state_step := e.state_step + 1 }
  let res := (e.trace.zip grads).foldl (fun sg p => updateEntry lr sg p.1.1 p.2) (stepped, g)
  ({ res.1 with trace := [] }, res.2)

/-- The read-path refresh under cross-relation mode: the requested
indices are masked by cpu_bitmap, deduplicated (th.unique), and the
device mirror rows are overwritten with the authoritative values
(self.emb[cpu_idx] = self.global_emb.emb[cpu_idx]); an empty subset is a
no-op. -/
def refreshCrossRels (e : Emb) (gemb : ℕ → ℕ → ℝ) (idx : List ℕ) : Emb :=
  let cpu_idx := (idx.filter fun i => e.cpu_bitmap i).dedup
  if cpu_idx.isEmpty then e
  else { e with emb := fun r c => if r ∈ cpu_idx then gemb r c else e.emb r c }

/-- Gathering s = self.emb[idx]: one row of dim columns per requested
index. -/
def gatherRows (e : Emb) (idx : List ℕ) : List (List ℝ) :=
  idx.map fun r => (List.range e.dim).map fun c => e.emb r c

/-- The read path (the source method named call surrounded by double
underscores): refresh overflow mirrors when has_cross_rel, gather the
rows, and when trace is requested append (idx, copy) to the trace and
return the copy; otherwise return the gathered values without touching
the trace.  gemb is the authoritative overflow row matrix
(self.global_emb.emb). -/
def call (e : Emb) (gemb : ℕ → ℕ → ℝ) (idx : List ℕ) (tr : Bool) : Emb × List (List ℝ) :=
  let e1 := if e.has_cross_rel then refreshCrossRels e gemb idx else e
  let s := gatherRows e1 idx
  if tr then ({ e1 with trace := e1.trace ++ [(idx, s)] }, s) else (e1, s)

/-- The asynchronous worker loop of async_update acting on the shared
table: it blocks on the queue, returns on the sentinel (grad_indices is
None), and otherwise performs exactly the steps of applyStd.  The list
argument is the sequence of jobs the worker dequeues, a sentinel encoded
as none. -/
def runWorker (lr : ℝ) (e : Emb) : List (Option (List ℕ × List (List ℝ))) → Emb
  | [] => e
  | none :: _ => e
  | some j :: rest => runWorker lr (applyStd lr e j.1 j.2) rest

/-- The producer side of update when async_q is set: state_step += 1,
one job (grad_indices, grad_values) enqueued per traced pair in order,
and the trace cleared.  Returns the producer-visible table state and the
enqueued job list. -/
def updateAsyncProducer (e : Emb) (grads : List (List (List ℝ))) :
    Emb × List (Option (List ℕ × List (List ℝ))) :=
  ({ e with state_step := e.state_step + 1, trace := [] },
   (e.trace.zip grads).map fun p => some (p.1.1, p.2))

/-- The dense num-by-dim row-major array that save writes
(np.save of self.emb). -/
def toMatrix (e : Emb) : List (List ℝ) :=
  (List.range e.num).map fun r => (List.range e.dim).map fun c => e.emb r c

/-- save: the file system is an association list from names to stored
arrays; save writes the full row matrix under the given name. -/
def save (fs : List (String × List (List ℝ))) (e : Emb) (nm : String) :
    List (String × List (List ℝ)) :=
  (nm, toMatrix e) :: fs

/-- load: self.emb = th.Tensor(np.load(file_name)); the row matrix is
replaced by the stored array looked up under the given name. -/
def load (fs : List (String × List (List ℝ))) (e : Emb) (nm : String) : Emb :=
  { e with emb := fun r c => (((fs.lookup nm).getD []).getD r []).getD c 0 }

/-- The all-zero weight function used by concrete scenarios. -/
def zf : ℕ → ℕ → ℝ := fun _ _ => 0

/-- A dummy authoritative table for scenarios that do not use
cross-relation mode. -/
def gdum : Emb := mkEmb 0 0 zf

/-- The table of the specification scenario: num_embeddings 10, dim 4,
all rows and the accumulator zero. -/
def embC1 : Emb := mkEmb 10 4 zf

/-- The scenario table after reading indices 2 and 5 with tracing. -/
def e1C1 : Emb := (call embC1 zf [2, 5] true).1

/-- The scenario table after the synchronous update with learning rate
0.1 and gradients [[1,1,1,1],[2,2,2,2]] on the traced copy. -/
def e2C1 : Emb := (update 0.1 e1C1 gdum [[[1, 1, 1, 1], [2, 2, 2, 2]]]).1

/-- A weight function with distinct values per cell, used by round-trip
and read witnesses. -/
def wRC : ℕ → ℕ → ℝ := fun r c => (r : ℝ) * 10 + (c : ℝ)

/-- A concrete cross-relation table: four rows of dimension two, zero
rows and accumulator, row 1 marked overflow-resident. -/
def eC3 : Emb :=
  { num := 4, dim := 2, emb := zf, state_sum := fun _ => 0,
    state_step := 0, trace := [([1], [[0, 0]])], has_cross_rel := true,
    cpu_bitmap := fun i => i == 1 }

/-- The authoritative overflow table paired with eC3. -/
def gC3 : Emb := mkEmb 4 2 zf

/-- A concrete cross-relation table none of whose rows is
overflow-resident, with one traced batch [2]. -/
def eC3b : Emb :=
  { num := 4, dim := 2, emb := zf, state_sum := fun _ => 0,
    state_step := 0, trace := [([2], [[0, 0]])], has_cross_rel := true,
    cpu_bitmap := fun _ => false }

/-- A concrete cross-relation table for the read-refresh witness: row 1
is overflow-resident and the device mirror holds the stale value 5
everywhere. -/
def eC6 : Emb :=
  { num := 4, dim := 2, emb := fun _ _ => 5, state_sum := fun _ => 0,
    state_step := 0, trace := [], has_cross_rel := true,
    cpu_bitmap := fun i => i == 1 }

/-- A concrete non-cross-relation table with one traced batch [1], used
by invariant witnesses. -/
def eW5 : Emb :=
  { num := 3, dim := 2, emb := zf, state_sum := fun _ => 0,
    state_step := 0, trace := [([1], [[0, 0]])], has_cross_rel := false,
    cpu_bitmap := fun _ => false }

/-- A Python exception value: its class and its message. -/
structure PyExc where
  cls : String
  msg : String

/-- The string traceback.format_exc() produces inside the helper thread:
a traceback header followed by the class and message of the exception
being handled. -/
def formatExc (e : PyExc) : String :=
  "Traceback (most recent call last): " ++ e.cls ++ ": " ++ e.msg

/-- thread_wrapped_func: the decorated function runs the wrapped
function in a helper thread, receives (res, exception, trace) through a
local queue, returns the result on success, and otherwise raises
exception.__class__(trace) in its own calling context: the class is
preserved and the message becomes the formatted traceback. -/
def thread_wrapped_func (f : Unit → Except PyExc α) : Except PyExc α :=
  match f () with
  | Except.ok r => Except.ok r
  | Except.error ex => Except.error { cls := ex.cls, msg := formatExc ex }

/-- What each side observes when the async pipeline runs a worker whose
decorated target is f: the worker process observes the outcome of the
decorated target (including the re-raise performed by
thread_wrapped_func inside that process), while the producer, whose
only synchronization points are the bounded queue and
finish_async_update (async_q.put of the sentinel followed by
async_p.join), receives no exception: multiprocessing Process.join
returns nothing and the source provides no channel carrying the worker
exception back to the producer. -/
structure AsyncRun (α : Type) where
  workerOutcome : Except PyExc α
  producerExc : Option PyExc

/-- Running the async pipeline to completion with decorated target f:
see AsyncRun. -/
def runAsyncProcess (f : Unit → Except PyExc α) : AsyncRun α :=
  { workerOutcome := thread_wrapped_func f, producerExc := none }

/-- A concrete failing worker body: it raises ValueError("boom"). -/
def fC7 : Unit → Except PyExc Unit := fun _ => Except.error { cls := "ValueError", msg := "boom" }

/-! ## Basic frame lemmas -/

theorem applyStd_trace (lr : ℝ) (e : Emb) (idx : List ℕ) (grad : List (List ℝ)) :
    (applyStd lr e idx grad).trace = e.trace := rfl

theorem applyStd_state_step (lr : ℝ) (e : Emb) (idx : List ℕ) (grad : List (List ℝ)) :
    (applyStd lr e idx grad).state_step = e.state_step := rfl

theorem applyStd_has_cross_rel (lr : ℝ) (e : Emb) (idx : List ℕ) (grad : List (List ℝ)) :
    (applyStd lr e idx grad).has_cross_rel = e.has_cross_rel := rfl

theorem refreshCrossRels_trace (e : Emb) (gemb : ℕ → ℕ → ℝ) (idx : List ℕ) :
    (refreshCrossRels e gemb idx).trace = e.trace := by
  unfold refreshCrossRels
  by_cases h : ((idx.filter fun i => e.cpu_bitmap i).dedup).isEmpty <;> simp [h]

theorem runWorker_trace (lr : ℝ) (jobs : List (Option (List ℕ × List (List ℝ)))) (e : Emb) :
    (runWorker lr e jobs).trace = e.trace := by
  induction jobs generalizing e with
  | nil => rfl
  | cons j rest ih =>
    cases j with
    | none => rfl
    | some p => simpa [runWorker, applyStd_trace] using ih (applyStd lr e p.1 p.2)

theorem call_fst_trace_true (e : Emb) (gemb : ℕ → ℕ → ℝ) (idx : List ℕ) :
    ((call e gemb idx true).1).trace = e.trace ++ [(idx, (call e gemb idx true).2)] := by
  unfold call
  cases h : e.has_cross_rel <;> simp [h, refreshCrossRels_trace]

theorem call_fst_trace_false (e : Emb) (gemb : ℕ → ℕ → ℝ) (idx : List ℕ) :
    ((call e gemb idx false).1).trace = e.trace := by
  unfold call
  cases h : e.has_cross_rel <;> simp [h, refreshCrossRels_trace]

/-! ## Claim C9: trace fill-then-drain lifecycle -/

/-- C9: the AccessTrace obeys a fill-then-drain lifecycle: a traced read
appends exactly the pair of its index batch and the returned copy and is
the only operation adding entries; an untraced read adds none; every
update, synchronous (update) or enqueueing (updateAsyncProducer), ends
with an empty trace; the async worker never adds entries. -/
theorem C9_trace_lifecycle (lr : ℝ) (e g : Emb) (gemb : ℕ → ℕ → ℝ) (idx : List ℕ)
    (grads : List (List (List ℝ))) (jobs : List (Option (List ℕ × List (List ℝ)))) :
    ((call e gemb idx true).1).trace = e.trace ++ [(idx, (call e gemb idx true).2)] ∧
    ((call e gemb idx false).1).trace = e.trace ∧
    ((update lr e g grads).1).trace = [] ∧
    ((updateAsyncProducer e grads).1).trace = [] ∧
    (runWorker lr e jobs).trace = e.trace :=
  ⟨call_fst_trace_true e gemb idx, call_fst_trace_false e gemb idx, rfl, rfl,
    runWorker_trace lr jobs e⟩

/-! ## Claim C10: update on an empty trace -/

/-- C10: when the trace is empty, update still increments state_step by
exactly one and leaves the rows, the accumulator and the trace
unchanged; the async producer path likewise increments the counter and
enqueues no job. -/
theorem C10_update_empty_trace (lr : ℝ) (e g : Emb) (grads : List (List (List ℝ)))
    (h : e.trace = []) :
    ((update lr e g grads).1).state_step = e.state_step + 1 ∧
    (∀ r c, ((update lr e g grads).1).emb r c = e.emb r c) ∧
    (∀ i, ((update lr e g grads).1).state_sum i = e.state_sum i) ∧
    ((update lr e g grads).1).trace = e.trace ∧
    ((updateAsyncProducer e grads).1).state_step = e.state_step + 1 ∧
    (updateAsyncProducer e grads).2 = [] := by
  simp [update, updateAsyncProducer, h]

/-- Witness for C10 at a concrete table with an empty trace. -/
theorem C10_update_empty_trace_witness :
    ((update 0.1 (mkEmb 3 2 wRC) gdum []).1).state_step = (mkEmb 3 2 wRC).state_step + 1 ∧
    (∀ r c, ((update 0.1 (mkEmb 3 2 wRC) gdum []).1).emb r c = (mkEmb 3 2 wRC).emb r c) ∧
    (∀ i, ((update 0.1 (mkEmb 3 2 wRC) gdum []).1).state_sum i = (mkEmb 3 2 wRC).state_sum i) ∧
    ((update 0.1 (mkEmb 3 2 wRC) gdum []).1).trace = (mkEmb 3 2 wRC).trace ∧
    ((updateAsyncProducer (mkEmb 3 2 wRC) []).1).state_step = (mkEmb 3 2 wRC).state_step + 1 ∧
    (updateAsyncProducer (mkEmb 3 2 wRC) []).2 = [] :=
  C10_update_empty_trace 0.1 (mkEmb 3 2 wRC) gdum [] rfl

/-! ## Claim C8: save then load round-trips the rows -/

theorem getD_range_map {α : Type} (f : ℕ → α) (n c : ℕ) (d : α) (hc : c < n) :
    ((List.range n).map f).getD c d = f c := by
  simp [List.getD_eq_getElem?_getD, List.getElem?_map, List.getElem?_range hc]

/-- C8: saving a table under a name and loading that name into a fresh
table of the same shape reproduces every row value exactly. -/
theorem C8_save_load_roundtrip (fs : List (String × List (List ℝ))) (e fresh : Emb)
    (nm : String) (r c : ℕ) (_hnum : fresh.num = e.num) (_hdim : fresh.dim = e.dim)
    (hr : r < e.num) (hc : c < e.dim) :
    (load (save fs e nm) fresh nm).emb r c = e.emb r c := by
  simp [load, save, toMatrix, List.getD_eq_getElem?_getD, List.getElem?_map,
    List.getElem?_range hr, List.getElem?_range hc]

/-- Witness for C8: a concrete 2 by 3 table with distinct cell values
round-trips the cell at row 1, column 2. -/
theorem C8_save_load_roundtrip_witness :
    (load (save [] (mkEmb 2 3 wRC) "entity") (mkEmb 2 3 zf) "entity").emb 1 2 =
      (mkEmb 2 3 wRC).emb 1 2 :=
  C8_save_load_roundtrip [] (mkEmb 2 3 wRC) (mkEmb 2 3 zf) "entity" 1 2 rfl rfl
    (by norm_num [mkEmb]) (by norm_num [mkEmb])

/-! ## Claim C7: exception forwarding of the async worker -/

/-- C7 counterexample: with a worker body raising ValueError("boom"),
the capture and re-raise of thread_wrapped_func happens in the worker
process itself (its outcome is the re-raised ValueError carrying the
traceback), while the producer, whose only synchronization with the
worker is the queue and finish_async_update (sentinel put plus
Process.join), receives no exception at all: producerExc is none, not
some re-raised exception as the claim requires. -/
theorem C7_counterexample :
    (runAsyncProcess fC7).workerOutcome =
      Except.error { cls := "ValueError",
                     msg := formatExc { cls := "ValueError", msg := "boom" } } ∧
    (runAsyncProcess fC7).producerExc = none :=
  ⟨rfl, rfl⟩

/-- C7 amended: an exception raised inside the wrapped worker body is
captured together with its formatted traceback by the helper thread and
re-raised, with the original class preserved and the traceback as the
message, in the context of the process that called the wrapped function
(the async worker process); the producer process receives no exception
when it synchronizes via join. -/
theorem C7_worker_reraise {α : Type} (f : Unit → Except PyExc α) (ex : PyExc)
    (h : f () = Except.error ex) :
    thread_wrapped_func f = Except.error { cls := ex.cls, msg := formatExc ex } ∧
    (runAsyncProcess f).workerOutcome =
      Except.error { cls := ex.cls, msg := formatExc ex } ∧
    (runAsyncProcess f).producerExc = none := by
  refine ⟨?_, ?_, rfl⟩ <;> simp [thread_wrapped_func, runAsyncProcess, h]

/-- Witness for C7 amended at the concrete failing worker body. -/
theorem C7_worker_reraise_witness :
    thread_wrapped_func fC7 =
      Except.error { cls := "ValueError",
                     msg := formatExc { cls := "ValueError", msg := "boom" } } ∧
    (runAsyncProcess fC7).workerOutcome =
      Except.error { cls := "ValueError",
                     msg := formatExc { cls := "ValueError", msg := "boom" } } ∧
    (runAsyncProcess fC7).producerExc = none :=
  C7_worker_reraise fC7 { cls := "ValueError", msg := "boom" } rfl

/-! ## Claim C2: a zero-gradient update is a no-op on rows and accumulator -/

theorem meanSq_replicate_zero (n : ℕ) : meanSq (List.replicate n 0) = 0 := by
  simp [meanSq]

theorem getD_replicate_zero (m c : ℕ) : (List.replicate m (0:ℝ)).getD c 0 = 0 := by
  rcases lt_or_ge c m with h | h
  · simp [List.getD_eq_getElem?_getD, List.getElem?_replicate, h]
  · have hnone : (List.replicate m (0:ℝ))[c]? = none := List.getElem?_eq_none (by simpa using h)
    simp [List.getD_eq_getElem?_getD, hnone]

theorem applyStd_zero_state_sum (lr : ℝ) (e : Emb) (idx : List ℕ) (n m i : ℕ) :
    (applyStd lr e idx (List.replicate n (List.replicate m 0))).state_sum i = e.state_sum i := by
  have hz : (List.replicate n (List.replicate m (0:ℝ))).map meanSq = List.replicate n 0 := by
    simp [List.map_replicate, meanSq_replicate_zero]
  have hzero : ∀ x ∈ ((idx.zip (List.replicate n (0:ℝ))).filter fun p => p.1 == i).map
      (fun p => p.2), x = 0 := by
    intro x hx
    obtain ⟨p, hp, rfl⟩ := List.mem_map.mp hx
    exact List.eq_of_mem_replicate (List.of_mem_zip (List.mem_filter.mp hp).1).2
  simp [applyStd, indexAdd1, hz, List.sum_eq_zero hzero]

theorem applyStd_zero_emb (lr : ℝ) (e : Emb) (idx : List ℕ) (n m r c : ℕ) :
    (applyStd lr e idx (List.replicate n (List.replicate m 0))).emb r c = e.emb r c := by
  have hzero : ∀ x ∈ ((idx.zip (((List.replicate n (List.replicate m (0:ℝ))).zip
      (idx.map fun i => Real.sqrt ((indexAdd1 e.state_sum
        (idx.zip ((List.replicate n (List.replicate m (0:ℝ))).map meanSq))) i) + eps)).map
      fun p => p.1.map fun x => -lr * x / p.2)).filter fun p => p.1 == r).map
      (fun p => p.2.getD c 0), x = 0 := by
    intro x hx
    obtain ⟨q, hq, rfl⟩ := List.mem_map.mp hx
    have hq2 := (List.of_mem_zip (List.mem_filter.mp hq).1).2
    obtain ⟨p, hp, hmap⟩ := List.mem_map.mp hq2
    have hp1 : p.1 = List.replicate m (0:ℝ) :=
      List.eq_of_mem_replicate (List.of_mem_zip hp).1
    rw [← hmap, hp1]
    simp [List.map_replicate, getD_replicate_zero]
  simp only [applyStd, indexAdd2]
  rw [List.sum_eq_zero hzero, add_zero]

/-- C2: on a table without cross-relation partitioning and with an empty
trace, a traced read of a valid duplicate-free batch followed by a
synchronous update whose supplied gradient is all zeros leaves every
row entry and every accumulator entry unchanged and increments the step
counter by exactly one. -/
theorem C2_zero_gradient_update (lr : ℝ) (e g : Emb) (gemb : ℕ → ℕ → ℝ) (idx : List ℕ)
    (hcross : e.has_cross_rel = false) (htrace : e.trace = [])
    (_hnodup : idx.Nodup) (_hvalid : ∀ i ∈ idx, i < e.num) :
    (∀ r c, ((update lr (call e gemb idx true).1 g
        [List.replicate idx.length (List.replicate e.dim 0)]).1).emb r c = e.emb r c) ∧
    (∀ i, ((update lr (call e gemb idx true).1 g
        [List.replicate idx.length (List.replicate e.dim 0)]).1).state_sum i = e.state_sum i) ∧
    ((update lr (call e gemb idx true).1 g
        [List.replicate idx.length (List.replicate e.dim 0)]).1).state_step =
      e.state_step + 1 := by
  have hcall : (call e gemb idx true).1 = { e with trace := [(idx, gatherRows e idx)] } := by
    simp [call, hcross, htrace]
  refine ⟨fun r c => ?_, fun i => ?_, ?_⟩ <;>
    simp [update, hcall, updateEntry, hcross, applyStd_zero_state_sum, applyStd_zero_emb,
      applyStd_state_step]

/-! ## Claim C6: reads refresh overflow mirrors from the authoritative table -/

theorem getD_map_lt {α β : Type} (f : α → β) (l : List α) (k : ℕ) (d0 : α) (d : β)
    (hk : k < l.length) : (l.map f).getD k d = f (l.getD k d0) := by
  simp [List.getD_eq_getElem?_getD, List.getElem?_map, List.getElem?_eq_getElem hk]

theorem refreshCrossRels_dim (e : Emb) (gemb : ℕ → ℕ → ℝ) (idx : List ℕ) :
    (refreshCrossRels e gemb idx).dim = e.dim := by
  unfold refreshCrossRels
  by_cases h : ((idx.filter fun i => e.cpu_bitmap i).dedup).isEmpty <;> simp [h]

theorem refreshCrossRels_emb_mem (e : Emb) (gemb : ℕ → ℕ → ℝ) (idx : List ℕ) (i c : ℕ)
    (hi : i ∈ idx) (hb : e.cpu_bitmap i = true) :
    (refreshCrossRels e gemb idx).emb i c = gemb i c := by
  have hmem : i ∈ (idx.filter fun j => e.cpu_bitmap j).dedup :=
    List.mem_dedup.mpr (List.mem_filter.mpr ⟨hi, hb⟩)
  have hne : ((idx.filter fun j => e.cpu_bitmap j).dedup).isEmpty = false := by
    cases hl : (idx.filter fun j => e.cpu_bitmap j).dedup with
    | nil => rw [hl] at hmem; cases hmem
    | cons a as => simp
  simp [refreshCrossRels, hne, hmem]
  intro h
  exact absurd hb (by simp [h hi])

/-- C6: on a table with cross-relation partitioning, every read first
refreshes the device mirror of the requested overflow rows from the
authoritative table before gathering: after a read whose batch contains
an overflow index, the device mirror row holds the current
authoritative values, and the data the read returns at that position
are the current authoritative values, not the stale mirror. -/
theorem C6_read_overflow_fresh (e : Emb) (gemb : ℕ → ℕ → ℝ) (idx : List ℕ)
    (tr : Bool) (i c k : ℕ) (hcr : e.has_cross_rel = true) (hi : i ∈ idx)
    (hb : e.cpu_bitmap i = true) (hk : k < idx.length) (hik : idx.getD k 0 = i)
    (hc : c < e.dim) :
    ((call e gemb idx tr).1).emb i c = gemb i c ∧
    (((call e gemb idx tr).2).getD k []).getD c 0 = gemb i c := by
  have hcall1 : ((call e gemb idx tr).1).emb = (refreshCrossRels e gemb idx).emb := by
    unfold call
    cases tr <;> simp [hcr]
  have hcall2 : (call e gemb idx tr).2 = gatherRows (refreshCrossRels e gemb idx) idx := by
    unfold call
    cases tr <;> simp [hcr]
  constructor
  · rw [hcall1]
    exact refreshCrossRels_emb_mem e gemb idx i c hi hb
  · rw [hcall2]
    unfold gatherRows
    rw [getD_map_lt _ idx k 0 [] hk, hik,
      getD_range_map _ _ _ _ (by rw [refreshCrossRels_dim]; exact hc)]
    exact refreshCrossRels_emb_mem e gemb idx i c hi hb

/-- Witness for C6: on the concrete overflow table eC6 whose stale
mirror holds 5 everywhere, reading batch [0, 1] returns the current
authoritative value of row 1 and refreshes the mirror. -/
theorem C6_read_overflow_fresh_witness :
    ((call eC6 wRC [0, 1] true).1).emb 1 0 = wRC 1 0 ∧
    (((call eC6 wRC [0, 1] true).2).getD 1 []).getD 0 0 = wRC 1 0 :=
  C6_read_overflow_fresh eC6 wRC [0, 1] true 1 0 1 rfl (by simp) rfl
    (by simp) rfl (by norm_num [eC6])

/-- Witness for C2: the zero-gradient no-op at a concrete 3 by 2 table
and batch [0, 2]. -/
theorem C2_zero_gradient_update_witness :
    (∀ r c, ((update 0.5 (call (mkEmb 3 2 wRC) zf [0, 2] true).1 gdum
        [List.replicate ([0, 2] : List ℕ).length
          (List.replicate (mkEmb 3 2 wRC).dim 0)]).1).emb r c = (mkEmb 3 2 wRC).emb r c) ∧
    (∀ i, ((update 0.5 (call (mkEmb 3 2 wRC) zf [0, 2] true).1 gdum
        [List.replicate ([0, 2] : List ℕ).length
          (List.replicate (mkEmb 3 2 wRC).dim 0)]).1).state_sum i =
      (mkEmb 3 2 wRC).state_sum i) ∧
    ((update 0.5 (call (mkEmb 3 2 wRC) zf [0, 2] true).1 gdum
        [List.replicate ([0, 2] : List ℕ).length
          (List.replicate (mkEmb 3 2 wRC).dim 0)]).1).state_step =
      (mkEmb 3 2 wRC).state_step + 1 :=
  C2_zero_gradient_update 0.5 (mkEmb 3 2 wRC) gdum zf [0, 2] rfl rfl (by decide)
    (by intro i hi; fin_cases hi <;> norm_num [mkEmb])

/-! ## Claim C4: the async pipeline refines the synchronous update -/

theorem runWorker_jobs_sentinel (lr : ℝ) (ps : List (List ℕ × List (List ℝ)))
    (rest : List (Option (List ℕ × List (List ℝ)))) :
    ∀ e : Emb, runWorker lr e (ps.map some ++ none :: rest) =
      ps.foldl (fun a j => applyStd lr a j.1 j.2) e := by
  induction ps with
  | nil => intro e; rfl
  | cons p ps ih =>
    intro e
    simp only [List.map_cons, List.cons_append, runWorker, List.foldl_cons]
    exact ih _

theorem foldl_updateEntry_fst (lr : ℝ) :
    ∀ (l : List ((List ℕ × List (List ℝ)) × List (List ℝ))) (sg : Emb × Emb),
      (l.foldl (fun a p => updateEntry lr a p.1.1 p.2) sg).1 =
        l.foldl (fun x p => applyStd lr x p.1.1 p.2) sg.1 := by
  intro l
  induction l with
  | nil => intro sg; rfl
  | cons p ps ih =>
    intro sg
    simp only [List.foldl_cons]
    exact ih (updateEntry lr sg p.1.1 p.2)

theorem foldl_applyStd_congr (lr : ℝ) :
    ∀ (l : List ((List ℕ × List (List ℝ)) × List (List ℝ))) (a b : Emb),
      a.emb = b.emb → a.state_sum = b.state_sum →
      (l.foldl (fun x p => applyStd lr x p.1.1 p.2) a).emb =
        (l.foldl (fun x p => applyStd lr x p.1.1 p.2) b).emb ∧
      (l.foldl (fun x p => applyStd lr x p.1.1 p.2) a).state_sum =
        (l.foldl (fun x p => applyStd lr x p.1.1 p.2) b).state_sum := by
  intro l
  induction l with
  | nil => intro a b h1 h2; exact ⟨h1, h2⟩
  | cons p ps ih =>
    intro a b h1 h2
    simp only [List.foldl_cons]
    exact ih _ _ (by simp [applyStd, h1, h2]) (by simp [applyStd, h1, h2])

/-- C4: for every table, enqueueing the jobs of one producer update
followed by the sentinel makes the worker apply every job in enqueue
order and terminate at the sentinel (whatever follows it is ignored),
and the resulting row and accumulator state of the table is exactly the
state the synchronous update produces from the same traced gradients
(the worker executes steps 3 to 8 per job; the synchronous path applies
the very same steps to the table itself, its cross-relation branch
touching only the separate overflow store). -/
theorem C4_async_refines_sync (lr : ℝ) (e g : Emb) (grads : List (List (List ℝ)))
    (rest : List (Option (List ℕ × List (List ℝ)))) :
    (runWorker lr e ((updateAsyncProducer e grads).2 ++ none :: rest)).emb =
      ((update lr e g grads).1).emb ∧
    (runWorker lr e ((updateAsyncProducer e grads).2 ++ none :: rest)).state_sum =
      ((update lr e g grads).1).state_sum := by
  have hjobs : (updateAsyncProducer e grads).2 =
      ((e.trace.zip grads).map fun p => (p.1.1, p.2)).map some := by
    simp [updateAsyncProducer, List.map_map]
  rw [hjobs, runWorker_jobs_sentinel, List.foldl_map]
  have hupd : (update lr e g grads).1 =
      { ((e.trace.zip grads).foldl (fun x p => applyStd lr x p.1.1 p.2)
          { e with state_step := e.state_step + 1 }) with trace := [] } := by
    simp only [update]
    rw [foldl_updateEntry_fst lr (e.trace.zip grads)
      ({ e with state_step := e.state_step + 1 }, g)]
  rw [hupd]
  exact foldl_applyStd_congr lr (e.trace.zip grads) e
    { e with state_step := e.state_step + 1 } rfl rfl

/-- Witness for C4: the worker applied to the job of the concrete traced
scenario table e1C1 plus the sentinel produces the same rows and
accumulator as the synchronous update. -/
theorem C4_async_refines_sync_witness :
    (runWorker 0.1 e1C1 ((updateAsyncProducer e1C1 [[[1, 1, 1, 1], [2, 2, 2, 2]]]).2 ++
        none :: [])).emb =
      ((update 0.1 e1C1 gdum [[[1, 1, 1, 1], [2, 2, 2, 2]]]).1).emb ∧
    (runWorker 0.1 e1C1 ((updateAsyncProducer e1C1 [[[1, 1, 1, 1], [2, 2, 2, 2]]]).2 ++
        none :: [])).state_sum =
      ((update 0.1 e1C1 gdum [[[1, 1, 1, 1], [2, 2, 2, 2]]]).1).state_sum :=
  C4_async_refines_sync 0.1 e1C1 gdum [[[1, 1, 1, 1], [2, 2, 2, 2]]] []

/-! ## Claim C5: the accumulator is non-negative and never decreases -/

theorem meanSq_nonneg (g : List ℝ) : 0 ≤ meanSq g := by
  unfold meanSq
  apply div_nonneg
  · apply List.sum_nonneg
    intro x hx
    obtain ⟨y, _, rfl⟩ := List.mem_map.mp hx
    exact mul_self_nonneg y
  · exact Nat.cast_nonneg _

theorem indexAdd1_le (f : ℕ → ℝ) (ps : List (ℕ × ℝ)) (i : ℕ)
    (h : ∀ p ∈ ps, 0 ≤ p.2) : f i ≤ indexAdd1 f ps i := by
  unfold indexAdd1
  have hs : 0 ≤ ((ps.filter fun p => p.1 == i).map fun p => p.2).sum := by
    apply List.sum_nonneg
    intro x hx
    obtain ⟨p, hp, rfl⟩ := List.mem_map.mp hx
    exact h p (List.mem_filter.mp hp).1
  linarith

theorem applyStd_state_sum_le (lr : ℝ) (e : Emb) (idx : List ℕ) (grad : List (List ℝ))
    (i : ℕ) : e.state_sum i ≤ (applyStd lr e idx grad).state_sum i := by
  show e.state_sum i ≤ indexAdd1 e.state_sum (idx.zip (grad.map meanSq)) i
  apply indexAdd1_le
  intro p hp
  obtain ⟨q, _, hq⟩ := List.mem_map.mp (List.of_mem_zip hp).2
  rw [← hq]
  exact meanSq_nonneg q

theorem applyCross_state_sum_le (lr : ℝ) (e g : Emb) (idx : List ℕ) (grad : List (List ℝ))
    (i : ℕ) : g.state_sum i ≤ (applyCross lr e g idx grad).state_sum i := by
  unfold applyCross
  cases h : ((idx.zip grad).filter fun p => e.cpu_bitmap p.1).isEmpty with
  | true => simp [h]
  | false =>
    simp only [h, Bool.false_eq_true, if_false]
    exact applyStd_state_sum_le lr g _ _ i

theorem foldl_updateEntry_state_sum_le (lr : ℝ) :
    ∀ (l : List ((List ℕ × List (List ℝ)) × List (List ℝ))) (sg : Emb × Emb) (i : ℕ),
      sg.1.state_sum i ≤ ((l.foldl (fun a p => updateEntry lr a p.1.1 p.2) sg)).1.state_sum i ∧
      sg.2.state_sum i ≤ ((l.foldl (fun a p => updateEntry lr a p.1.1 p.2) sg)).2.state_sum i := by
  intro l
  induction l with
  | nil => intro sg i; exact ⟨le_refl _, le_refl _⟩
  | cons p ps ih =>
    intro sg i
    simp only [List.foldl_cons]
    refine ⟨le_trans ?_ (ih (updateEntry lr sg p.1.1 p.2) i).1,
      le_trans ?_ (ih (updateEntry lr sg p.1.1 p.2) i).2⟩
    · exact applyStd_state_sum_le lr sg.1 p.1.1 p.2 i
    · show sg.2.state_sum i ≤ (updateEntry lr sg p.1.1 p.2).2.state_sum i
      unfold updateEntry
      cases h : sg.1.has_cross_rel with
      | true => simp only [h, if_true]; exact applyCross_state_sum_le lr sg.1 sg.2 p.1.1 p.2 i
      | false => simp [h]

theorem runWorker_state_sum_le (lr : ℝ) :
    ∀ (jobs : List (Option (List ℕ × List (List ℝ)))) (e : Emb) (i : ℕ),
      e.state_sum i ≤ (runWorker lr e jobs).state_sum i := by
  intro jobs
  induction jobs with
  | nil => intro e i; exact le_refl _
  | cons j rest ih =>
    intro e i
    cases j with
    | none => exact le_refl _
    | some p =>
      exact le_trans (applyStd_state_sum_le lr e p.1 p.2 i) (ih (applyStd lr e p.1 p.2) i)

theorem indexAdd1_notmem (f : ℕ → ℝ) (ps : List (ℕ × ℝ)) (i : ℕ)
    (h : ∀ p ∈ ps, p.1 ≠ i) : indexAdd1 f ps i = f i := by
  unfold indexAdd1
  rw [List.filter_eq_nil_iff.mpr (fun p hp => by simpa using h p hp)]
  simp

theorem applyStd_state_sum_notmem (lr : ℝ) (e : Emb) (idx : List ℕ) (grad : List (List ℝ))
    (i : ℕ) (h : i ∉ idx) : (applyStd lr e idx grad).state_sum i = e.state_sum i := by
  show indexAdd1 e.state_sum (idx.zip (grad.map meanSq)) i = e.state_sum i
  apply indexAdd1_notmem
  intro p hp hpi
  exact h (hpi ▸ (List.of_mem_zip hp).1)

theorem foldl_updateEntry_state_sum_notmem (lr : ℝ) :
    ∀ (l : List ((List ℕ × List (List ℝ)) × List (List ℝ))) (sg : Emb × Emb) (i : ℕ),
      (∀ p ∈ l, i ∉ p.1.1) →
      ((l.foldl (fun a p => updateEntry lr a p.1.1 p.2) sg)).1.state_sum i =
        sg.1.state_sum i := by
  intro l
  induction l with
  | nil => intro sg i _; rfl
  | cons p ps ih =>
    intro sg i h
    simp only [List.foldl_cons]
    rw [ih (updateEntry lr sg p.1.1 p.2) i (fun q hq => h q (List.mem_cons_of_mem p hq))]
    show (applyStd lr sg.1 p.1.1 p.2).state_sum i = sg.1.state_sum i
    exact applyStd_state_sum_notmem lr sg.1 p.1.1 p.2 i (h p (List.mem_cons_self p ps))

theorem filter_fst_beq_zip {α : Type} :
    ∀ (idx : List ℕ) (vs : List α) (k : ℕ) (d : α), idx.Nodup → k < idx.length →
      k < vs.length →
      (idx.zip vs).filter (fun p => p.1 == idx.getD k 0) =
        [(idx.getD k 0, vs.getD k d)] := by
  intro idx
  induction idx with
  | nil => intro vs k d _ hk _; exact absurd hk (by simp)
  | cons a as ih =>
    intro vs k d hnd hk hkv
    cases vs with
    | nil => exact absurd hkv (by simp)
    | cons v ws =>
      have ha : a ∉ as := (List.nodup_cons.mp hnd).1
      cases k with
      | zero =>
        have hnil : (as.zip ws).filter (fun p => p.1 == a) = [] :=
          List.filter_eq_nil_iff.mpr (fun p hp => by
            simp only [beq_iff_eq]
            exact fun h => ha (h ▸ (List.of_mem_zip hp).1))
        simp [List.zip_cons_cons, List.filter_cons, List.getD_cons_zero, hnil]
      | succ k =>
        have hk2 : k < as.length := by simpa using hk
        have hkv2 : k < ws.length := by simpa using hkv
        have hmem : as.getD k 0 ∈ as := by
          rw [List.getD_eq_getElem?_getD, List.getElem?_eq_getElem hk2]
          exact List.getElem_mem hk2
        have hne : (a == as.getD k 0) = false :=
          beq_eq_false_iff_ne.mpr (fun h => ha (h ▸ hmem))
        simp only [List.zip_cons_cons, List.getD_cons_succ, List.filter_cons, hne,
          Bool.false_eq_true, if_false]
        exact ih ws k d (List.nodup_cons.mp hnd).2 hk2 hkv2

theorem applyStd_state_sum_single (lr : ℝ) (e : Emb) (idx : List ℕ) (gr : List (List ℝ))
    (k : ℕ) (hnd : idx.Nodup) (hk : k < idx.length) (hlen : idx.length = gr.length) :
    (applyStd lr e idx gr).state_sum (idx.getD k 0) =
      e.state_sum (idx.getD k 0) + meanSq (gr.getD k []) := by
  show indexAdd1 e.state_sum (idx.zip (gr.map meanSq)) (idx.getD k 0) = _
  unfold indexAdd1
  rw [filter_fst_beq_zip idx (gr.map meanSq) k 0 hnd hk
    (by rw [List.length_map, ← hlen]; exact hk)]
  simp only [List.map_cons, List.map_nil, List.sum_cons, List.sum_nil, add_zero]
  congr 1
  rw [getD_map_lt meanSq gr k [] 0 (by rw [← hlen]; exact hk)]

/-- C5: the accumulator of a fresh table is zero, no synchronous or
asynchronous optimizer application ever decreases any accumulator entry
of the local or the authoritative table, non-negativity is preserved,
entries outside every traced batch are untouched, and for a single
duplicate-free traced batch the touched entry grows by exactly the mean
of the squared gradient of its row. -/
theorem C5_accumulator_monotone (lr : ℝ) (e g : Emb) (grads : List (List (List ℝ)))
    (jobs : List (Option (List ℕ × List (List ℝ)))) (n d : ℕ) (w : ℕ → ℕ → ℝ) (i : ℕ) :
    (mkEmb n d w).state_sum i = 0 ∧
    e.state_sum i ≤ ((update lr e g grads).1).state_sum i ∧
    g.state_sum i ≤ ((update lr e g grads).2).state_sum i ∧
    (0 ≤ e.state_sum i → 0 ≤ ((update lr e g grads).1).state_sum i) ∧
    e.state_sum i ≤ (runWorker lr e jobs).state_sum i ∧
    ((∀ p ∈ e.trace, i ∉ p.1) → ((update lr e g grads).1).state_sum i = e.state_sum i) ∧
    (∀ idx data gr k, e.trace = [(idx, data)] → grads = [gr] → idx.Nodup →
      k < idx.length → idx.length = gr.length →
      ((update lr e g grads).1).state_sum (idx.getD k 0) =
        e.state_sum (idx.getD k 0) + meanSq (gr.getD k [])) := by
  have hle := foldl_updateEntry_state_sum_le lr (e.trace.zip grads)
    ({ e with state_step := e.state_step + 1 }, g) i
  refine ⟨rfl, hle.1, hle.2, fun h0 => le_trans h0 hle.1, runWorker_state_sum_le lr jobs e i,
    fun h => ?_, fun idx data gr k ht hg hnd hk hlen => ?_⟩
  · exact foldl_updateEntry_state_sum_notmem lr (e.trace.zip grads)
      ({ e with state_step := e.state_step + 1 }, g) i
      (fun p hp => h p.1 (List.of_mem_zip hp).1)
  · show ((e.trace.zip grads).foldl (fun a p => updateEntry lr a p.1.1 p.2)
      ({ e with state_step := e.state_step + 1 }, g)).1.state_sum (idx.getD k 0) = _
    rw [ht, hg]
    show (updateEntry lr ({ e with state_step := e.state_step + 1 }, g) idx gr).1.state_sum
        (idx.getD k 0) = _
    exact applyStd_state_sum_single lr { e with state_step := e.state_step + 1 } idx gr k
      hnd hk hlen

/-- Witness for C5 at a concrete table with one traced batch. -/
theorem C5_accumulator_monotone_witness :
    (mkEmb 10 4 zf).state_sum 2 = 0 ∧
    eW5.state_sum 1 ≤ ((update 0.1 eW5 gdum [[[3, 4]]]).1).state_sum 1 ∧
    (0 ≤ ((update 0.1 eW5 gdum [[[3, 4]]]).1).state_sum 2) ∧
    ((update 0.1 eW5 gdum [[[3, 4]]]).1).state_sum 2 = eW5.state_sum 2 ∧
    ((update 0.1 eW5 gdum [[[3, 4]]]).1).state_sum (([1] : List ℕ).getD 0 0) =
      eW5.state_sum (([1] : List ℕ).getD 0 0) +
        meanSq (([[3, 4]] : List (List ℝ)).getD 0 []) := by
  have h := C5_accumulator_monotone 0.1 eW5 gdum [[[3, 4]]] [] 10 4 zf 2
  have h1 := C5_accumulator_monotone 0.1 eW5 gdum [[[3, 4]]] [] 10 4 zf 1
  refine ⟨h.1, h1.2.1, h.2.2.2.1 (le_refl 0), h.2.2.2.2.2.1 ?_,
    h1.2.2.2.2.2.2 [1] [[0, 0]] [[3, 4]] 0 rfl rfl (by decide) (by decide) rfl⟩
  intro p hp
  simp only [eW5, List.mem_singleton] at hp
  subst hp
  decide

/-! ## Claim C1: the concrete scenario of the specification -/

theorem div_sqrt_eps_ne : (-0.1 : ℝ) / (Real.sqrt 1 + eps) ≠ -0.1 / Real.sqrt (1 + eps) := by
  rw [Real.sqrt_one]
  intro h
  have hs : Real.sqrt (1 + eps) ^ 2 = 1 + eps := Real.sq_sqrt (by norm_num [eps])
  have hpos : 0 < Real.sqrt (1 + eps) := Real.sqrt_pos.mpr (by norm_num [eps])
  have hmul : (-0.1 : ℝ) * Real.sqrt (1 + eps) = -0.1 * (1 + eps) :=
    (div_eq_div_iff (by norm_num [eps]) (ne_of_gt hpos)).mp h
  have hne : Real.sqrt (1 + eps) = 1 + eps :=
    mul_left_cancel₀ (show (-0.1 : ℝ) ≠ 0 by norm_num) hmul
  rw [hne] at hs
  norm_num [eps] at hs

/-- C1 counterexample: the optimizer divides by
sqrt(accumulator) + 1e-10 (std.sqrt_().add_(1e-10)), not by
sqrt(accumulator + 1e-10) as the claim writes: in the scenario the
resulting entry of row 2 differs from the value the claim states. -/
theorem C1_scenario_counterexample :
    e2C1.emb 2 0 ≠ -0.1 / Real.sqrt (1 + 1e-10) := by
  have hval : e2C1.emb 2 0 = -0.1 / (Real.sqrt 1 + eps) := by
    norm_num [e2C1, e1C1, embC1, mkEmb, update, updateEntry, applyStd, indexAdd1,
      indexAdd2, meanSq, call, gatherRows, zf, gdum]
  rw [hval, show (1e-10 : ℝ) = eps from rfl]
  exact div_sqrt_eps_ne

/-- C1 amended: in the scenario (table 10 by 4, rows and accumulator
zero, traced read of [2, 5], gradients [[1,1,1,1],[2,2,2,2]], update
with learning rate 0.1) the accumulator becomes 1.0 at row 2 and 4.0 at
row 5, every component of row 2 becomes -0.1 / (sqrt(1.0) + 1e-10),
every component of row 5 becomes -0.1 * 2 / (sqrt(4.0) + 1e-10), and
every other row and accumulator entry stays exactly 0. -/
theorem C1_scenario (r c i : ℕ) (hc : c < 4) (hr2 : r ≠ 2) (hr5 : r ≠ 5)
    (hi2 : i ≠ 2) (hi5 : i ≠ 5) :
    e2C1.state_sum 2 = 1 ∧
    e2C1.state_sum 5 = 4 ∧
    e2C1.emb 2 c = -0.1 / (Real.sqrt 1 + eps) ∧
    e2C1.emb 5 c = -0.1 * 2 / (Real.sqrt 4 + eps) ∧
    e2C1.emb r c = 0 ∧
    e2C1.state_sum i = 0 := by
  refine ⟨?_, ?_, ?_, ?_, ?_, ?_⟩
  · norm_num [e2C1, e1C1, embC1, mkEmb, update, updateEntry, applyStd, indexAdd1,
      indexAdd2, meanSq, call, gatherRows, zf, gdum]
  · norm_num [e2C1, e1C1, embC1, mkEmb, update, updateEntry, applyStd, indexAdd1,
      indexAdd2, meanSq, call, gatherRows, zf, gdum]
  · interval_cases c <;>
      norm_num [e2C1, e1C1, embC1, mkEmb, update, updateEntry, applyStd, indexAdd1,
        indexAdd2, meanSq, call, gatherRows, zf, gdum]
  · interval_cases c <;>
      norm_num [e2C1, e1C1, embC1, mkEmb, update, updateEntry, applyStd, indexAdd1,
        indexAdd2, meanSq, call, gatherRows, zf, gdum]
  · have h2 : (2 == r) = false := by simp [Ne.symm hr2]
    have h5 : (5 == r) = false := by simp [Ne.symm hr5]
    norm_num [e2C1, e1C1, embC1, mkEmb, update, updateEntry, applyStd, indexAdd1,
      indexAdd2, meanSq, call, gatherRows, zf, gdum, List.filter, h2, h5]
  · have h2 : (2 == i) = false := by simp [Ne.symm hi2]
    have h5 : (5 == i) = false := by simp [Ne.symm hi5]
    norm_num [e2C1, e1C1, embC1, mkEmb, update, updateEntry, applyStd, indexAdd1,
      indexAdd2, meanSq, call, gatherRows, zf, gdum, List.filter, h2, h5]

/-- Witness for C1 amended at column 1, frame row 0 and frame
accumulator entry 7. -/
theorem C1_scenario_witness :
    e2C1.state_sum 2 = 1 ∧
    e2C1.state_sum 5 = 4 ∧
    e2C1.emb 2 1 = -0.1 / (Real.sqrt 1 + eps) ∧
    e2C1.emb 5 1 = -0.1 * 2 / (Real.sqrt 4 + eps) ∧
    e2C1.emb 0 1 = 0 ∧
    e2C1.state_sum 7 = 0 :=
  C1_scenario 0 1 7 (by norm_num) (by norm_num) (by norm_num) (by norm_num) (by norm_num)

/-! ## Claim C3: cross-relation update targets -/

/-- C3 counterexample: the claim says the device-resident table receives
the accumulator and row scatter-adds only at the non-overflow remainder
of the traced indices.  On the concrete cross-relation table eC3 the
single traced index 1 is overflow-resident (its membership_mask is
true), so under the claim the device row 1 would remain 0; but the
source applies index_add_ with the complete grad_indices to the device
table, so the update changes device row 1 away from 0. -/
theorem C3_counterexample :
    ((update 0.1 eC3 gC3 [[[1, 1]]]).1).emb 1 0 ≠ 0 := by
  have hval : ((update 0.1 eC3 gC3 [[[1, 1]]]).1).emb 1 0 = -0.1 / (Real.sqrt 1 + eps) := by
    norm_num [update, updateEntry, applyStd, applyCross, indexAdd1, indexAdd2, meanSq,
      eC3, gC3, mkEmb, zf]
  rw [hval, Real.sqrt_one]
  exact div_ne_zero (by norm_num) (by norm_num [eps])

theorem applyCross_state_sum_single (lr : ℝ) (e g : Emb) (idx : List ℕ)
    (gr : List (List ℝ)) (k : ℕ) (hnd : idx.Nodup) (hk : k < idx.length)
    (hlen : idx.length = gr.length) (hb : e.cpu_bitmap (idx.getD k 0) = true) :
    (applyCross lr e g idx gr).state_sum (idx.getD k 0) =
      g.state_sum (idx.getD k 0) + meanSq (gr.getD k []) := by
  have hkg : k < gr.length := hlen ▸ hk
  have hplain : (idx.zip gr).filter (fun p => p.1 == idx.getD k 0) =
      [(idx.getD k 0, gr.getD k [])] := filter_fst_beq_zip idx gr k [] hnd hk hkg
  have hpred : ∀ x : ℕ × List ℝ, ((x.1 == idx.getD k 0) && e.cpu_bitmap x.1) =
      (x.1 == idx.getD k 0) := by
    intro x
    cases hx : (x.1 == idx.getD k 0) with
    | false => simp
    | true =>
      have hx1 : x.1 = idx.getD k 0 := eq_of_beq hx
      simp only [hx, hx1, hb, Bool.and_self]
  have hcomb : ((idx.zip gr).filter (fun p => e.cpu_bitmap p.1)).filter
      (fun p => p.1 == idx.getD k 0) = [(idx.getD k 0, gr.getD k [])] := by
    rw [List.filter_filter, List.filter_congr (fun x _ => hpred x), hplain]
  have hpsne : ((idx.zip gr).filter fun p => e.cpu_bitmap p.1) ≠ [] := by
    intro h0
    rw [h0] at hcomb
    simp at hcomb
  have hLfilter : (((idx.zip gr).filter fun p => e.cpu_bitmap p.1).map
      (fun p => (p.1, meanSq p.2))).filter (fun q => q.1 == idx.getD k 0) =
      [(idx.getD k 0, meanSq (gr.getD k []))] := by
    rw [List.filter_map]
    rw [show ((fun q : ℕ × ℝ => q.1 == idx.getD k 0) ∘
        (fun p : ℕ × List ℝ => (p.1, meanSq p.2))) =
      (fun p : ℕ × List ℝ => p.1 == idx.getD k 0) from rfl]
    rw [hcomb]
    rfl
  unfold applyCross
  rw [if_neg (fun h => hpsne (List.isEmpty_iff.mp h))]
  show indexAdd1 g.state_sum ((((idx.zip gr).filter fun p => e.cpu_bitmap p.1).map
      Prod.fst).zip ((((idx.zip gr).filter fun p => e.cpu_bitmap p.1).map
      Prod.snd).map meanSq)) (idx.getD k 0) = _
  rw [List.map_map, List.zip_map' Prod.fst (meanSq ∘ Prod.snd)]
  unfold indexAdd1
  rw [show (fun a : ℕ × List ℝ => (Prod.fst a, (meanSq ∘ Prod.snd) a)) =
    (fun p : ℕ × List ℝ => (p.1, meanSq p.2)) from rfl]
  rw [hLfilter]
  simp

theorem getD_lt {α : Type} (l : List α) (k : ℕ) (d : α) (h : k < l.length) :
    l.getD k d = l[k] := by
  rw [List.getD_eq_getElem?_getD, List.getElem?_eq_getElem h]
  rfl

theorem getD_zip_lt {α β : Type} (l : List α) (m : List β) (k : ℕ) (da : α) (db : β)
    (h1 : k < l.length) (h2 : k < m.length) :
    (l.zip m).getD k (da, db) = (l.getD k da, m.getD k db) := by
  have hz : k < (l.zip m).length := by
    rw [List.length_zip]
    exact lt_min h1 h2
  rw [getD_lt _ k _ hz, getD_lt _ k _ h1, getD_lt _ k _ h2, List.getElem_zip]

theorem applyStd_emb_single (lr : ℝ) (e : Emb) (idx : List ℕ) (gr : List (List ℝ))
    (k c : ℕ) (hnd : idx.Nodup) (hk : k < idx.length) (hlen : idx.length = gr.length)
    (hc : c < (gr.getD k []).length) :
    (applyStd lr e idx gr).emb (idx.getD k 0) c =
      e.emb (idx.getD k 0) c +
        -lr * ((gr.getD k []).getD c 0) /
          (Real.sqrt (e.state_sum (idx.getD k 0) + meanSq (gr.getD k [])) + eps) := by
  have hkg : k < gr.length := hlen ▸ hk
  have hs2 : indexAdd1 e.state_sum (idx.zip (gr.map meanSq)) (idx.getD k 0) =
      e.state_sum (idx.getD k 0) + meanSq (gr.getD k []) :=
    applyStd_state_sum_single lr e idx gr k hnd hk hlen
  have hstdlen : k < (idx.map fun j =>
      Real.sqrt (indexAdd1 e.state_sum (idx.zip (gr.map meanSq)) j) + eps).length := by
    rw [List.length_map]
    exact hk
  have hziplen : k < (gr.zip (idx.map fun j =>
      Real.sqrt (indexAdd1 e.state_sum (idx.zip (gr.map meanSq)) j) + eps)).length := by
    rw [List.length_zip, List.length_map]
    exact lt_min hkg hk
  have htmplen : k < ((gr.zip (idx.map fun j =>
      Real.sqrt (indexAdd1 e.state_sum (idx.zip (gr.map meanSq)) j) + eps)).map
        fun p => p.1.map fun x => -lr * x / p.2).length := by
    rw [List.length_map]
    exact hziplen
  show indexAdd2 e.emb (idx.zip ((gr.zip (idx.map fun j =>
      Real.sqrt (indexAdd1 e.state_sum (idx.zip (gr.map meanSq)) j) + eps)).map
        fun p => p.1.map fun x => -lr * x / p.2)) (idx.getD k 0) c = _
  unfold indexAdd2
  rw [filter_fst_beq_zip idx _ k [] hnd hk htmplen]
  simp only [List.map_cons, List.map_nil, List.sum_cons, List.sum_nil, add_zero]
  congr 1
  rw [getD_map_lt _ _ k ([], 0) [] hziplen]
  rw [getD_zip_lt gr _ k [] 0 hkg hstdlen]
  dsimp only
  rw [getD_map_lt _ _ c 0 0 hc]
  rw [getD_map_lt _ idx k 0 0 hk]
  rw [hs2]

theorem applyCross_emb_single (lr : ℝ) (e g : Emb) (idx : List ℕ) (gr : List (List ℝ))
    (k c : ℕ) (hnd : idx.Nodup) (hk : k < idx.length) (hlen : idx.length = gr.length)
    (hb : e.cpu_bitmap (idx.getD k 0) = true) (hc : c < (gr.getD k []).length) :
    (applyCross lr e g idx gr).emb (idx.getD k 0) c =
      g.emb (idx.getD k 0) c +
        -lr * ((gr.getD k []).getD c 0) /
          (Real.sqrt (g.state_sum (idx.getD k 0) + meanSq (gr.getD k [])) + eps) := by
  have hkg : k < gr.length := hlen ▸ hk
  have hplain : (idx.zip gr).filter (fun p => p.1 == idx.getD k 0) =
      [(idx.getD k 0, gr.getD k [])] := filter_fst_beq_zip idx gr k [] hnd hk hkg
  have hmemzip : (idx.getD k 0, gr.getD k []) ∈
      (idx.zip gr).filter (fun p => e.cpu_bitmap p.1) := by
    apply List.mem_filter.mpr
    refine ⟨?_, hb⟩
    have hmem0 : (idx.getD k 0, gr.getD k []) ∈
        (idx.zip gr).filter (fun p => p.1 == idx.getD k 0) := by
      rw [hplain]
      exact List.mem_singleton_self _
    exact List.mem_of_mem_filter hmem0
  obtain ⟨n, hn, hpsn⟩ := List.getElem_of_mem hmemzip
  have hn1 : n < (((idx.zip gr).filter (fun p => e.cpu_bitmap p.1)).map Prod.fst).length := by
    rw [List.length_map]
    exact hn
  have hn2 : n < (((idx.zip gr).filter (fun p => e.cpu_bitmap p.1)).map Prod.snd).length := by
    rw [List.length_map]
    exact hn
  have hfst : (((idx.zip gr).filter (fun p => e.cpu_bitmap p.1)).map Prod.fst).getD n 0 =
      idx.getD k 0 := by
    rw [getD_lt _ n 0 hn1, List.getElem_map, hpsn]
  have hsnd : (((idx.zip gr).filter (fun p => e.cpu_bitmap p.1)).map Prod.snd).getD n [] =
      gr.getD k [] := by
    rw [getD_lt _ n [] hn2, List.getElem_map, hpsn]
  have hndcpu : (((idx.zip gr).filter (fun p => e.cpu_bitmap p.1)).map Prod.fst).Nodup := by
    have hfstzip : List.map Prod.fst (idx.zip gr) = idx :=
      List.map_fst_zip idx gr (le_of_eq hlen)
    have hsub : (((idx.zip gr).filter (fun p => e.cpu_bitmap p.1)).map Prod.fst).Sublist
        ((idx.zip gr).map Prod.fst) := List.Sublist.map Prod.fst (List.filter_sublist _)
    rw [hfstzip] at hsub
    exact List.Nodup.sublist hsub hnd
  have hc2 : c < ((((idx.zip gr).filter (fun p => e.cpu_bitmap p.1)).map
      Prod.snd).getD n []).length := by
    rw [hsnd]
    exact hc
  have happ := applyStd_emb_single lr g
    (((idx.zip gr).filter (fun p => e.cpu_bitmap p.1)).map Prod.fst)
    (((idx.zip gr).filter (fun p => e.cpu_bitmap p.1)).map Prod.snd)
    n c hndcpu hn1 (by rw [List.length_map, List.length_map]) hc2
  rw [hfst, hsnd] at happ
  have hne : ((idx.zip gr).filter (fun p => e.cpu_bitmap p.1)) ≠ [] :=
    List.ne_nil_of_mem hmemzip
  unfold applyCross
  rw [if_neg (fun h => hne (List.isEmpty_iff.mp h))]
  exact happ

/-- C3 amended: when cross-relation partitioning is enabled, the
synchronous update first applies the accumulator scatter-add (step 4)
and the row scatter-add (step 7) for the subset of traced indices whose
membership_mask is true against the overflow store, and then applies
those steps to ALL traced indices (overflow ones included, not only the
remainder) against the device-resident table: for a single
duplicate-free traced batch every traced index gains its
squared-gradient mean in the device accumulator and its Adagrad row
delta in the device rows, every overflow traced index additionally
gains both in the overflow store, and a batch containing no overflow
index leaves the overflow store completely untouched. -/
theorem C3_cross_update_targets (lr : ℝ) (e g : Emb) (idx : List ℕ)
    (data gr : List (List ℝ)) (k c : ℕ) (hcr : e.has_cross_rel = true)
    (ht : e.trace = [(idx, data)]) (hnd : idx.Nodup) (hk : k < idx.length)
    (hlen : idx.length = gr.length) (hc : c < (gr.getD k []).length) :
    ((update lr e g [gr]).1).state_sum (idx.getD k 0) =
      e.state_sum (idx.getD k 0) + meanSq (gr.getD k []) ∧
    ((update lr e g [gr]).1).emb (idx.getD k 0) c =
      e.emb (idx.getD k 0) c +
        -lr * ((gr.getD k []).getD c 0) /
          (Real.sqrt (e.state_sum (idx.getD k 0) + meanSq (gr.getD k [])) + eps) ∧
    (e.cpu_bitmap (idx.getD k 0) = true →
      ((update lr e g [gr]).2).state_sum (idx.getD k 0) =
        g.state_sum (idx.getD k 0) + meanSq (gr.getD k [])) ∧
    (e.cpu_bitmap (idx.getD k 0) = true →
      ((update lr e g [gr]).2).emb (idx.getD k 0) c =
        g.emb (idx.getD k 0) c +
          -lr * ((gr.getD k []).getD c 0) /
            (Real.sqrt (g.state_sum (idx.getD k 0) + meanSq (gr.getD k [])) + eps)) ∧
    ((∀ j ∈ idx, e.cpu_bitmap j = false) → (update lr e g [gr]).2 = g) := by
  have hfold2 : (update lr e g [gr]).2 =
      applyCross lr { e with state_step := e.state_step + 1 } g idx gr := by
    show ((e.trace.zip [gr]).foldl (fun a p => updateEntry lr a p.1.1 p.2)
      ({ e with state_step := e.state_step + 1 }, g)).2 = _
    rw [ht]
    show (updateEntry lr ({ e with state_step := e.state_step + 1 }, g) idx gr).2 = _
    simp only [updateEntry]
    simp only [hcr, if_true]
    rfl
  refine ⟨?_, ?_, fun hb => ?_, fun hb => ?_, fun hall => ?_⟩
  · show ((e.trace.zip [gr]).foldl (fun a p => updateEntry lr a p.1.1 p.2)
      ({ e with state_step := e.state_step + 1 }, g)).1.state_sum (idx.getD k 0) = _
    rw [ht]
    show (updateEntry lr ({ e with state_step := e.state_step + 1 }, g) idx gr).1.state_sum
        (idx.getD k 0) = _
    exact applyStd_state_sum_single lr { e with state_step := e.state_step + 1 } idx gr k
      hnd hk hlen
  · show ((e.trace.zip [gr]).foldl (fun a p => updateEntry lr a p.1.1 p.2)
      ({ e with state_step := e.state_step + 1 }, g)).1.emb (idx.getD k 0) c = _
    rw [ht]
    show (updateEntry lr ({ e with state_step := e.state_step + 1 }, g) idx gr).1.emb
        (idx.getD k 0) c = _
    exact applyStd_emb_single lr { e with state_step := e.state_step + 1 } idx gr k c
      hnd hk hlen hc
  · rw [hfold2]
    exact applyCross_state_sum_single lr { e with state_step := e.state_step + 1 } g idx gr k
      hnd hk hlen hb
  · rw [hfold2]
    exact applyCross_emb_single lr { e with state_step := e.state_step + 1 } g idx gr k c
      hnd hk hlen hb hc
  · rw [hfold2]
    unfold applyCross
    have hnil : ((idx.zip gr).filter fun p =>
        ({ e with state_step := e.state_step + 1 } : Emb).cpu_bitmap p.1) = [] :=
      List.filter_eq_nil_iff.mpr (fun p hp => by
        simp [hall p.1 (List.of_mem_zip hp).1])
    simp [hnil]

/-- Witness for C3 amended: on eC3 (traced overflow index 1) the device
accumulator and device row at 1 and the overflow store accumulator and
row at 1 all gain their contribution, and on eC3b (traced non-overflow
index 2) the overflow store is untouched. -/
theorem C3_cross_update_targets_witness :
    ((update 0.1 eC3 gC3 [[[1, 1]]]).1).state_sum (([1] : List ℕ).getD 0 0) =
      eC3.state_sum (([1] : List ℕ).getD 0 0) +
        meanSq (([[1, 1]] : List (List ℝ)).getD 0 []) ∧
    ((update 0.1 eC3 gC3 [[[1, 1]]]).1).emb (([1] : List ℕ).getD 0 0) 0 =
      eC3.emb (([1] : List ℕ).getD 0 0) 0 +
        -(0.1 : ℝ) * ((([[1, 1]] : List (List ℝ)).getD 0 []).getD 0 0) /
          (Real.sqrt (eC3.state_sum (([1] : List ℕ).getD 0 0) +
            meanSq (([[1, 1]] : List (List ℝ)).getD 0 [])) + eps) ∧
    ((update 0.1 eC3 gC3 [[[1, 1]]]).2).state_sum (([1] : List ℕ).getD 0 0) =
      gC3.state_sum (([1] : List ℕ).getD 0 0) +
        meanSq (([[1, 1]] : List (List ℝ)).getD 0 []) ∧
    ((update 0.1 eC3 gC3 [[[1, 1]]]).2).emb (([1] : List ℕ).getD 0 0) 0 =
      gC3.emb (([1] : List ℕ).getD 0 0) 0 +
        -(0.1 : ℝ) * ((([[1, 1]] : List (List ℝ)).getD 0 []).getD 0 0) /
          (Real.sqrt (gC3.state_sum (([1] : List ℕ).getD 0 0) +
            meanSq (([[1, 1]] : List (List ℝ)).getD 0 [])) + eps) ∧
    (update 0.1 eC3b gC3 [[[1, 1]]]).2 = gC3 :=
  ⟨(C3_cross_update_targets 0.1 eC3 gC3 [1] [[0, 0]] [[1, 1]] 0 0 rfl rfl (by decide)
      (by decide) rfl (by decide)).1,
   (C3_cross_update_targets 0.1 eC3 gC3 [1] [[0, 0]] [[1, 1]] 0 0 rfl rfl (by decide)
      (by decide) rfl (by decide)).2.1,
   (C3_cross_update_targets 0.1 eC3 gC3 [1] [[0, 0]] [[1, 1]] 0 0 rfl rfl (by decide)
      (by decide) rfl (by decide)).2.2.1 rfl,
   (C3_cross_update_targets 0.1 eC3 gC3 [1] [[0, 0]] [[1, 1]] 0 0 rfl rfl (by decide)
      (by decide) rfl (by decide)).2.2.2.1 rfl,
   (C3_cross_update_targets 0.1 eC3b gC3 [2] [[0, 0]] [[1, 1]] 0 0 rfl rfl (by decide)
      (by decide) rfl (by decide)).2.2.2.2 (fun j _ => rfl)⟩

end DglkeTensorModels

end
